import Mathlib

/-!
Verification development for the employee identity-resolution engine
(`mapper.py`): the Normalizer string cleanup, the cascading Matcher with
its Tie-Breaker, the run-level partition into automatic and pending
mapping tables, and the manual-override import.

Pandas data frames are modelled as Lean lists of row structures (filters
preserve order, as pandas filters do); Python strings are modelled as
`String` / `List Char`.
-/

/- ### Normalizer: string helpers (`mapper.py` lines 13-36 and 38-71) -/

/-- Model of `EmployeeMapper.is_english`: `string.encode('utf-8').decode('ascii')`
succeeds exactly when every code point is below 128. -/
def is_english (s : String) : Bool :=
  s.data.all (fun c => c.toNat < 128)

/-- Model of `EmployeeMapper.transliterate_latin`.  The third-party
`translit(string, 'ru')` library call is external to the repository, so it is
abstracted as a function parameter `translitRu`. -/
def transliterate_latin (translitRu : String → String) (s : String) : String :=
  if is_english s then translitRu s else s

/-- Per-character lower-casing, modelling `str.lower` (ASCII model). -/
def lowerStr (s : List Char) : List Char := s.map Char.toLower

/-- Model of Python `.replace('  ', ' ')`: one left-to-right pass replacing
each non-overlapping occurrence of two adjacent spaces with a single space. -/
def collapsePairs : List Char → List Char
  | [] => []
  | [c] => [c]
  | c1 :: c2 :: rest =>
    if c1 = ' ' ∧ c2 = ' ' then ' ' :: collapsePairs rest
    else c1 :: collapsePairs (c2 :: rest)

/-- Model of `.split('(').str[0]`: the part of the string before the first
opening parenthesis. -/
def beforeParen (s : List Char) : List Char := s.takeWhile (fun c => c ≠ '(')

/-- Model of Python `.strip()`: drop leading and trailing whitespace. -/
def pyStrip (s : List Char) : List Char :=
  ((s.dropWhile Char.isWhitespace).reverse.dropWhile Char.isWhitespace).reverse

/-- The HR-side cleanup applied to the `email` and `employee_name` columns in
`get_hr_df`: `.str.lower().str.replace('  ', ' ').str.split('(').str[0].str.strip()`. -/
def clean_hr_field (s : List Char) : List Char :=
  pyStrip (beforeParen (collapsePairs (lowerStr s)))

/-- The cloud-side cleanup for `email_clean` in `get_cloud_users_df`:
`.str.lower().str.strip()`. -/
def clean_cloud_email (s : List Char) : List Char :=
  pyStrip (lowerStr s)

/-- Whether a string contains two adjacent space characters. -/
def hasAdjacentSpaces : List Char → Bool
  | c1 :: c2 :: rest => (c1 == ' ' && c2 == ' ') || hasAdjacentSpaces (c2 :: rest)
  | _ => false

/- ### Data model for the Matcher -/

/-- One (normalized) row of the HR directory as produced by `get_hr_df`. -/
structure HrRow where
  employee_uid : String
  email : String
  employee_name : String
  last_first_name : String
  login : String
  exit_date : Int
  main_workplace : Bool
deriving DecidableEq, Repr

/-- One (normalized) cloud-account row as produced by `get_cloud_users_df`. -/
structure CloudRow where
  hr_system : String
  email : String
  email_clean : String
  login : String
  last_first_name : String
  full_name : String
deriving DecidableEq, Repr

/-- The first component of `get_employee_uid`'s result list: either a single
`employee_uid` string or a Python list of candidate uids. -/
inductive EmpId where
  | one : String → EmpId
  | many : List String → EmpId
deriving DecidableEq, Repr

/-- The `[employee_id, mapping_method, mapping_type]` triple returned by
`get_employee_uid`. -/
structure UidResult where
  emp : EmpId
  method : String
  source : String
deriving DecidableEq, Repr

/-- The result dict built by `identify_user`. -/
structure MatchResult where
  hr_system : String
  system_email : String
  employee_id : EmpId
  mapping_method : String
  mapping_source : String
deriving DecidableEq, Repr

/- ### Tie-Breaker (`get_employee_uid`, `mapper.py` lines 86-118) -/

/-- Model of pandas `df['exit_date'].max()` over a data frame. -/
def exitMax : List HrRow → Int
  | [] => 0
  | r :: rest => rest.foldl (fun m x => max m x.exit_date) r.exit_date

/-- Model of `df['employee_uid'].iloc[0]` (first row of a data frame). -/
def headUid : List HrRow → String
  | [] => ""
  | r :: _ => r.employee_uid

/-- The first tie-break filter `df[df['exit_date'] == max_exit]`. -/
def tieFilterExit (df : List HrRow) : List HrRow :=
  df.filter (fun r => r.exit_date == exitMax df)

/-- The second tie-break filter `df[df['main_workplace'] == True]`. -/
def tieFilterMain (df : List HrRow) : List HrRow :=
  df.filter (fun r => r.main_workplace)

/-- Model of `EmployeeMapper.get_employee_uid`: resolve a filtered HR frame to
`[employee_id, mapping_method, mapping_type]`, with the two tie-break steps
(maximum `exit_date`, then `main_workplace == True`). -/
def get_employee_uid (df : List HrRow) (mapping_type : String) : UidResult :=
  if df.length = 0 then ⟨EmpId.one "not_mapped", "not_mapped", mapping_type⟩
  else if df.length = 1 then ⟨EmpId.one (headUid df), "only_choice", mapping_type⟩
  else if (tieFilterExit df).length = 1 then
    ⟨EmpId.one (headUid (tieFilterExit df)), "only_active", mapping_type⟩
  else if (tieFilterMain (tieFilterExit df)).length = 1 then
    ⟨EmpId.one (headUid (tieFilterMain (tieFilterExit df))), "only_main", mapping_type⟩
  else
    ⟨EmpId.many ((tieFilterMain (tieFilterExit df)).map (fun r => r.employee_uid)),
      "needs_manual", mapping_type⟩

/- ### Matcher cascade (`identify_user`, `mapper.py` lines 120-145) -/

/-- Dynamic column access `df_hr[param]` for the four candidate key columns. -/
def hrField (r : HrRow) (param : String) : String :=
  if param = "email" then r.email
  else if param = "employee_name" then r.employee_name
  else if param = "last_first_name" then r.last_first_name
  else r.login

/-- The `attempts_dict` of `identify_user`, in Python dict-insertion order. -/
def attempts (translitRu : String → String) (row : CloudRow) : List (String × String) :=
  [("email", row.email_clean),
   ("employee_name", row.full_name),
   ("last_first_name", transliterate_latin translitRu row.last_first_name),
   ("login", row.login)]

/-- The value `attempts_dict[param]` for a given candidate key name. -/
def attempt_value (translitRu : String → String) (row : CloudRow) (param : String) : String :=
  if param = "email" then row.email_clean
  else if param = "employee_name" then row.full_name
  else if param = "last_first_name" then transliterate_latin translitRu row.last_first_name
  else row.login

/-- Assembly of the `result_dict` from a `get_employee_uid` result. -/
def stepResult (hrSys sysEmail : String) (mr : UidResult) : MatchResult :=
  ⟨hrSys, sysEmail, mr.emp, mr.method, mr.source⟩

/-- The filter `df_hr[df_hr[param] == attempts_dict[param]]`. -/
def keyFilter (df_hr : List HrRow) (param value : String) : List HrRow :=
  df_hr.filter (fun r => hrField r param == value)

/-- The loop body of `identify_user` over the remaining attempts: try each
`(param, value)` pair in order, returning as soon as `mapping_result[0] !=
'not_mapped'`; otherwise fall through to the `not_mapped` dict. -/
def identify_go (hrSys sysEmail : String) (df_hr : List HrRow) :
    List (String × String) → MatchResult
  | [] => ⟨hrSys, sysEmail, EmpId.many ["no_options"], "not_mapped", "not_mapped"⟩
  | (param, value) :: rest =>
    if (get_employee_uid (keyFilter df_hr param value) param).emp ≠ EmpId.one "not_mapped" then
      stepResult hrSys sysEmail (get_employee_uid (keyFilter df_hr param value) param)
    else identify_go hrSys sysEmail df_hr rest

/-- Model of `EmployeeMapper.identify_user`. -/
def identify_user (translitRu : String → String) (row : CloudRow)
    (df_hr : List HrRow) : MatchResult :=
  identify_go row.hr_system row.email df_hr (attempts translitRu row)

/-- Specification-side cascade, written from the spec's words (section 4.3):
return the outcome of the earliest candidate key whose equality filter over
the HR directory is non-empty; if no key ever produced a non-empty filtered
set, resolve `not_mapped` with `["no_options"]`.  Used to compare the spec's
cascade rule with `identify_user`. -/
def cascade_go_spec (hrSys sysEmail : String) (df_hr : List HrRow) :
    List (String × String) → MatchResult
  | [] => ⟨hrSys, sysEmail, EmpId.many ["no_options"], "not_mapped", "not_mapped"⟩
  | (param, value) :: rest =>
    if (keyFilter df_hr param value).length ≠ 0 then
      stepResult hrSys sysEmail (get_employee_uid (keyFilter df_hr param value) param)
    else cascade_go_spec hrSys sysEmail df_hr rest

/-- Specification-side Matcher: the cascade as section 4.3 of the spec
states it. -/
def cascade_spec (translitRu : String → String) (row : CloudRow)
    (df_hr : List HrRow) : MatchResult :=
  cascade_go_spec row.hr_system row.email df_hr (attempts translitRu row)

/- ### Run-level model (`map_users`, `mapper.py` lines 147-191) -/

/-- The predicate routing a match result to the pending-review list in the
`map_users` loop. -/
def pendingPred (r : MatchResult) : Bool :=
  r.mapping_method == "needs_manual" || r.mapping_method == "not_mapped"

/-- The `map_users` resolution loop: build `mapped_records` and
`manual_mapping_needed` in input order (the mapped branch calls
`identify_user` a second time, as the source does). -/
def runLoop (translitRu : String → String) (df_hr : List HrRow) :
    List CloudRow → List MatchResult × List MatchResult
  | [] => ([], [])
  | row :: rest =>
    if pendingPred (identify_user translitRu row df_hr) then
      ((runLoop translitRu df_hr rest).1,
        identify_user translitRu row df_hr :: (runLoop translitRu df_hr rest).2)
    else
      (identify_user translitRu row df_hr :: (runLoop translitRu df_hr rest).1,
        (runLoop translitRu df_hr rest).2)

/-- Model of pandas `explode` on the `employee_id` column: a list value
becomes one row per element, an empty list one null (NaN) row, a scalar one
row with that scalar. -/
def explodeIds : EmpId → List (Option String)
  | EmpId.one s => [some s]
  | EmpId.many [] => [none]
  | EmpId.many l => l.map some

/-- One row of the `hr_cloud_mapping_needed` table (`employee_id` renamed to
`possible_options`); `already_mapped` is `none` while the column has not been
added. -/
structure PendingRow where
  hr_system : String
  system_email : String
  possible_options : Option String
  already_mapped : Option Nat
deriving DecidableEq, Repr

/-- Explode one pending match result into `hr_cloud_mapping_needed` rows. -/
def explodeRow (r : MatchResult) : List PendingRow :=
  (explodeIds r.employee_id).map (fun o => ⟨r.hr_system, r.system_email, o, none⟩)

/-- When the old `hr_cloud_mapping_needed` table exists, set `already_mapped`
to 1 on rows whose `system_email` was already queued and 0 otherwise
(`fillna(0)`); when it does not exist the column is never added. -/
def markAlready (old : Option (List PendingRow)) (rows : List PendingRow) :
    List PendingRow :=
  match old with
  | none => rows
  | some oldRows =>
    rows.map (fun r =>
      let flag : Nat := if oldRows.any (fun o => o.system_email == r.system_email) then 1 else 0
      ⟨r.hr_system, r.system_email, r.possible_options, some flag⟩)

/-- The persisted output tables of the engine: `hr_cloud_mapped_auto`
(append-only) and `hr_cloud_mapping_needed` (`none` while the table does not
exist yet). -/
structure DbState where
  auto : List MatchResult
  pendingTable : Option (List PendingRow)
deriving DecidableEq, Repr

/-- The account set the Matcher evaluates this run: when the
`v_hr_cloud_mapping` view exists, drop accounts whose raw `email` is among
the view's `system_email` values. -/
def evaluated (known : Option (List String)) (accounts : List CloudRow) :
    List CloudRow :=
  match known with
  | none => accounts
  | some emails => accounts.filter (fun r => !(emails.contains r.email))

/-- Model of `EmployeeMapper.map_users` as a state transformer over the two
output tables: filter accounts by the known-mapped view, resolve each
remaining account, append the resolved records to `hr_cloud_mapped_auto` and
replace `hr_cloud_mapping_needed` with the exploded, annotated pending rows. -/
def map_users (translitRu : String → String) (accounts : List CloudRow)
    (df_hr : List HrRow) (known : Option (List String)) (st : DbState) : DbState :=
  let df := evaluated known accounts
  let res := runLoop translitRu df_hr df
  let exploded := (res.2.map explodeRow).flatten
  ⟨st.auto ++ res.1, some (markAlready st.pendingTable exploded)⟩

/-- Modelled from the spec: the database view `v_hr_cloud_mapping` is not part
of the repository source (it lives in the warehouse); per section 4.5 of the
spec, `knownMappedAccounts()` is the union of the `system_email` values
already present in the automatic and manual mapping tables. -/
def knownMappedAccounts (st : DbState) (manualEmails : List String) : List String :=
  st.auto.map (fun r => r.system_email) ++ manualEmails

/- ### Effect trace of one run (for the all-or-nothing property) -/

/-- The externally visible I/O operations `map_users` performs, in order. -/
inductive RunOp where
  | readCloud
  | readKnown
  | readHr
  | writeAuto
  | readPending
  | writePending
  | writeExcel
deriving DecidableEq, Repr

/-- Whether an operation mutates persisted state. -/
def isWrite : RunOp → Bool
  | RunOp.writeAuto => true
  | RunOp.writePending => true
  | RunOp.writeExcel => true
  | _ => false

/-- The ordered effect trace of one `map_users` run: read the cloud accounts,
read the known-mapped view if it exists, read the HR view, append to
`hr_cloud_mapped_auto`, read the old pending table if it exists, replace
`hr_cloud_mapping_needed`, and write the review spreadsheet when pending rows
exist. -/
def runTrace (knownExists oldPendingExists pendingNonempty : Bool) : List RunOp :=
  [RunOp.readCloud]
    ++ (if knownExists then [RunOp.readKnown] else [])
    ++ [RunOp.readHr, RunOp.writeAuto]
    ++ (if oldPendingExists then [RunOp.readPending] else [])
    ++ [RunOp.writePending]
    ++ (if pendingNonempty then [RunOp.writeExcel] else [])

/-- The writes that have persisted when a run dies after its first `k`
operations (prefix-failure model: every earlier operation took effect, no
later one did). -/
def persistedWrites (knownExists oldPendingExists pendingNonempty : Bool)
    (k : Nat) : List RunOp :=
  ((runTrace knownExists oldPendingExists pendingNonempty).take k).filter isWrite

/- ### Feedback Loop (`update_manual_from_excel`, `mapper.py` lines 193-206) -/

/-- One row of the reviewed spreadsheet's `final` sheet. -/
structure ManualRow where
  system_email : String
  possible_options : String
  load_to_manual : Int
deriving DecidableEq, Repr

/-- One row of the `hr_cloud_mapped_manual` table: a kept reviewed row plus
the `last_update` stamp. -/
structure StampedManualRow where
  row : ManualRow
  last_update : Nat
deriving DecidableEq, Repr

/-- Model of `EmployeeMapper.update_manual_from_excel`: `excel` is `none` when
`support/manual_mapping.xlsx` does not exist (the table is left unchanged);
otherwise keep the rows with `load_to_manual == 1`, stamp them with the
current time and replace the `hr_cloud_mapped_manual` table wholesale. -/
def update_manual_from_excel (excel : Option (List ManualRow)) (now : Nat)
    (oldTable : List StampedManualRow) : List StampedManualRow :=
  match excel with
  | none => oldTable
  | some rows =>
    (rows.filter (fun r => r.load_to_manual == 1)).map (fun r => ⟨r, now⟩)


/- ### Helper lemmas -/

theorem head?_dropWhile_false (p : Char → Bool) :
    ∀ (l : List Char) (c : Char), (l.dropWhile p).head? = some c → p c = false := by
  intro l
  induction l with
  | nil => intro c h; simp [List.dropWhile] at h
  | cons a l ih =>
    intro c h
    by_cases hp : p a
    · rw [List.dropWhile_cons_of_pos hp] at h
      exact ih c h
    · rw [List.dropWhile_cons_of_neg hp] at h
      simp at h
      rw [← h]
      simpa using hp

theorem getLast?_dropWhile_eq (p : Char → Bool) :
    ∀ (l : List Char), l.dropWhile p ≠ [] → (l.dropWhile p).getLast? = l.getLast? := by
  intro l
  induction l with
  | nil => intro h; simp [List.dropWhile] at h
  | cons a l ih =>
    intro h
    by_cases hp : p a
    · rw [List.dropWhile_cons_of_pos hp] at h ⊢
      rw [ih h]
      match l, h with
      | b :: m, _ => simp
    · rw [List.dropWhile_cons_of_neg hp]

theorem mem_collapsePairs :
    ∀ (l : List Char) (c : Char), c ∈ collapsePairs l → c ∈ l := by
  intro l
  induction l using collapsePairs.induct with
  | case1 => intro c hc; simp [collapsePairs] at hc
  | case2 c0 => intro c hc; simp [collapsePairs] at hc; simp [hc]
  | case3 c1 c2 rest hsp ih =>
    intro c hc
    rw [collapsePairs, if_pos hsp] at hc
    rcases List.mem_cons.mp hc with h | h
    · simp [h, hsp.1]
    · simp [ih c h]
  | case4 c1 c2 rest hsp ih =>
    intro c hc
    rw [collapsePairs, if_neg hsp] at hc
    rcases List.mem_cons.mp hc with h | h
    · simp [h]
    · rcases List.mem_cons.mp (ih c h) with h2 | h2
      · simp [h2]
      · simp [h2]

theorem collapsePairs_replicate_space :
    ∀ n, collapsePairs (List.replicate n ' ') = List.replicate ((n + 1) / 2) ' ' := by
  intro n
  induction n using Nat.strong_induction_on with
  | _ n ih =>
    match n with
    | 0 => rfl
    | 1 => rfl
    | m + 2 =>
      have h2 : List.replicate (m + 2) ' ' = ' ' :: ' ' :: List.replicate m ' ' := rfl
      rw [h2, collapsePairs, if_pos ⟨rfl, rfl⟩, ih m (by omega)]
      have harith : (m + 2 + 1) / 2 = (m + 1) / 2 + 1 := by omega
      rw [harith]
      rfl

theorem mem_clean_hr_field (s : List Char) (c : Char) :
    c ∈ clean_hr_field s → c ∈ lowerStr s := by
  intro hc
  unfold clean_hr_field pyStrip at hc
  rw [List.mem_reverse] at hc
  have h1 := (List.dropWhile_sublist Char.isWhitespace).mem hc
  rw [List.mem_reverse] at h1
  have h2 := (List.dropWhile_sublist Char.isWhitespace).mem h1
  have h3 := (List.takeWhile_sublist (fun c => c ≠ '(')).mem h2
  exact mem_collapsePairs _ c h3

theorem clean_hr_field_no_paren (s : List Char) : '(' ∉ clean_hr_field s := by
  intro hc
  unfold clean_hr_field pyStrip at hc
  rw [List.mem_reverse] at hc
  have h1 := (List.dropWhile_sublist Char.isWhitespace).mem hc
  rw [List.mem_reverse] at h1
  have h2 := (List.dropWhile_sublist Char.isWhitespace).mem h1
  have h3 := List.mem_takeWhile_imp h2
  simp at h3

theorem clean_hr_field_head (s : List Char) (c : Char) :
    (clean_hr_field s).head? = some c → c.isWhitespace = false := by
  intro hc
  unfold clean_hr_field pyStrip at hc
  rw [List.head?_reverse] at hc
  set t := List.dropWhile Char.isWhitespace
      (List.reverse (List.dropWhile Char.isWhitespace (beforeParen (collapsePairs (lowerStr s))))) with ht
  have htne : t ≠ [] := by
    intro he
    rw [he] at hc
    simp at hc
  rw [getLast?_dropWhile_eq Char.isWhitespace _ htne] at hc
  rw [List.getLast?_reverse] at hc
  exact head?_dropWhile_false Char.isWhitespace _ c hc

theorem clean_hr_field_last (s : List Char) (c : Char) :
    (clean_hr_field s).getLast? = some c → c.isWhitespace = false := by
  intro hc
  unfold clean_hr_field pyStrip at hc
  rw [List.getLast?_reverse] at hc
  exact head?_dropWhile_false Char.isWhitespace _ c hc

/- ### Claim C7 -/

/-- C7: `transliterate_latin` returns the (library) transliteration of `s`
when `s` encodes as pure ASCII, and returns `s` unchanged otherwise; in
particular any string containing at least one non-ASCII character is returned
identical to the input. -/
theorem C7_transliterate_dispatch (translitRu : String → String) (s : String) :
    (is_english s = true → transliterate_latin translitRu s = translitRu s) ∧
    (is_english s = false → transliterate_latin translitRu s = s) ∧
    (∀ c ∈ s.data, 128 ≤ c.toNat → transliterate_latin translitRu s = s) := by
  refine ⟨fun h => ?_, fun h => ?_, fun c hc hge => ?_⟩
  · simp [transliterate_latin, h]
  · simp [transliterate_latin, h]
  · have h : is_english s = false := by
      unfold is_english
      rw [List.all_eq_false]
      exact ⟨c, hc, by simpa using hge⟩
    simp [transliterate_latin, h]

/-- Witness for C7 at concrete inputs: an ASCII string is passed to the
transliteration function, a string with a Cyrillic letter is returned
unchanged. -/
theorem C7_transliterate_dispatch_witness :
    transliterate_latin (fun _ => "ив") "iv" = "ив" ∧
    transliterate_latin (fun _ => "ив") "ив" = "ив" := by
  constructor
  · exact (C7_transliterate_dispatch (fun _ => "ив") "iv").1 (by decide)
  · exact (C7_transliterate_dispatch (fun _ => "ив") "ив").2.1 (by decide)

/- ### Claim C8 -/

/-- C8 counterexample: the raw input `"a   b"` (three internal spaces) is
cleaned by the HR pipeline to `"a  b"`, which still contains two adjacent
space characters, so the single `.replace('  ', ' ')` pass does not collapse
every run of repeated internal spaces to one space. -/
theorem C8_counterexample :
    hasAdjacentSpaces (clean_hr_field ['a', ' ', ' ', ' ', 'b']) = true := by decide

/-- C8 (amended): the HR-side cleanup lower-cases every character, applies a
single left-to-right pass replacing each non-overlapping pair of adjacent
spaces with one space (a run of `n` spaces becomes `(n+1)/2` spaces, so runs
of three or more can leave adjacent spaces in the cleaned string), drops
everything from the first opening parenthesis on, and strips surrounding
whitespace. -/
theorem C8_clean_hr_field_amended :
    (∀ n, collapsePairs (List.replicate n ' ') = List.replicate ((n + 1) / 2) ' ') ∧
    (∀ s c, c ∈ clean_hr_field s → c ∈ lowerStr s) ∧
    (∀ s, '(' ∉ clean_hr_field s) ∧
    (∀ s c, (clean_hr_field s).head? = some c → c.isWhitespace = false) ∧
    (∀ s c, (clean_hr_field s).getLast? = some c → c.isWhitespace = false) := by
  exact ⟨collapsePairs_replicate_space, mem_clean_hr_field, clean_hr_field_no_paren,
    clean_hr_field_head, clean_hr_field_last⟩

/-- Witness for C8 (amended) at concrete inputs: a run of five spaces becomes
three, the cleaned string keeps only lower-cased input characters, and a
concrete cleaned field starts with a non-whitespace character. -/
theorem C8_clean_hr_field_amended_witness :
    collapsePairs (List.replicate 5 ' ') = List.replicate 3 ' ' ∧
    'a' ∈ lowerStr ['A', 'b'] ∧
    ('c'.isWhitespace = false) := by
  refine ⟨C8_clean_hr_field_amended.1 5, ?_, ?_⟩
  · exact C8_clean_hr_field_amended.2.1 ['A', 'b'] 'a' (by decide)
  · exact C8_clean_hr_field_amended.2.2.2.1 ['c'] 'c' (by decide)

/- ### Structure lemmas for the Tie-Breaker and cascade -/

theorem headUid_mem (df : List HrRow) (h : df ≠ []) :
    ∃ r ∈ df, headUid df = r.employee_uid := by
  match df, h with
  | r :: rest, _ => exact ⟨r, List.mem_cons_self r rest, rfl⟩

theorem mem_tieFilterExit (df : List HrRow) (r : HrRow) (h : r ∈ tieFilterExit df) :
    r ∈ df :=
  (List.mem_filter.mp h).1

theorem mem_tieFilterMain (df : List HrRow) (r : HrRow) (h : r ∈ tieFilterMain df) :
    r ∈ df :=
  (List.mem_filter.mp h).1

theorem get_employee_uid_source (df : List HrRow) (t : String) :
    (get_employee_uid df t).source = t := by
  unfold get_employee_uid
  split_ifs <;> rfl

theorem get_employee_uid_cases (df : List HrRow) (t : String) :
    (df = [] ∧ get_employee_uid df t = ⟨EmpId.one "not_mapped", "not_mapped", t⟩) ∨
    ((get_employee_uid df t).method ∈ ["only_choice", "only_active", "only_main"] ∧
      ∃ r ∈ df, (get_employee_uid df t).emp = EmpId.one r.employee_uid) ∨
    ((get_employee_uid df t).method = "needs_manual" ∧
      ∃ ls, (get_employee_uid df t).emp = EmpId.many ls ∧
        ∀ u ∈ ls, ∃ r ∈ df, u = r.employee_uid) := by
  unfold get_employee_uid
  split_ifs with h0 h1 h2 h3
  · exact Or.inl ⟨List.length_eq_zero.mp h0, rfl⟩
  · refine Or.inr (Or.inl ⟨by simp, ?_⟩)
    obtain ⟨r, hr, he⟩ := headUid_mem df (by intro he; rw [he] at h1; simp at h1)
    exact ⟨r, hr, by simp [he]⟩
  · refine Or.inr (Or.inl ⟨by simp, ?_⟩)
    obtain ⟨r, hr, he⟩ :=
      headUid_mem (tieFilterExit df) (by intro he; rw [he] at h2; simp at h2)
    exact ⟨r, mem_tieFilterExit df r hr, by simp [he]⟩
  · refine Or.inr (Or.inl ⟨by simp, ?_⟩)
    obtain ⟨r, hr, he⟩ :=
      headUid_mem (tieFilterMain (tieFilterExit df))
        (by intro he; rw [he] at h3; simp at h3)
    exact ⟨r, mem_tieFilterExit df r (mem_tieFilterMain _ r hr), by simp [he]⟩
  · refine Or.inr (Or.inr ⟨rfl, _, rfl, ?_⟩)
    intro u hu
    rw [List.mem_map] at hu
    obtain ⟨r, hr, he⟩ := hu
    exact ⟨r, mem_tieFilterExit df r (mem_tieFilterMain _ r hr), he.symm⟩

theorem le_foldl_max (rest : List HrRow) :
    ∀ a : Int, a ≤ rest.foldl (fun m x => max m x.exit_date) a := by
  induction rest with
  | nil => intro a; simp
  | cons b m ih =>
    intro a
    exact le_trans (le_max_left a b.exit_date) (ih (max a b.exit_date))

theorem mem_le_foldl_max (rest : List HrRow) :
    ∀ (a : Int) (x : HrRow), x ∈ rest →
      x.exit_date ≤ rest.foldl (fun m y => max m y.exit_date) a := by
  induction rest with
  | nil => intro a x hx; simp at hx
  | cons b m ih =>
    intro a x hx
    rcases List.mem_cons.mp hx with h | h
    · subst h
      exact le_trans (le_max_right a x.exit_date) (le_foldl_max m _)
    · exact ih (max a b.exit_date) x h

theorem exitMax_is_max (df : List HrRow) (r : HrRow) (h : r ∈ df) :
    r.exit_date ≤ exitMax df := by
  match df, h with
  | b :: m, h =>
    rcases List.mem_cons.mp h with h1 | h1
    · subst h1
      exact le_foldl_max m _
    · exact mem_le_foldl_max m _ r h1

theorem get_employee_uid_two_rows (r1 r2 : HrRow) (t : String)
    (h : r2.exit_date < r1.exit_date) :
    get_employee_uid [r1, r2] t = ⟨EmpId.one r1.employee_uid, "only_active", t⟩ := by
  have hmax : exitMax [r1, r2] = r1.exit_date := by
    unfold exitMax
    simp [max_eq_left h.le]
  have hfilter : tieFilterExit [r1, r2] = [r1] := by
    unfold tieFilterExit
    rw [hmax]
    have h2 : (r2.exit_date == r1.exit_date) = false := by
      simp [h.ne]
    simp [List.filter, h2]
  unfold get_employee_uid
  rw [hfilter]
  simp [headUid]

theorem identify_go_shape (hrSys sysEmail : String) (df_hr : List HrRow) :
    ∀ l : List (String × String),
      ((identify_go hrSys sysEmail df_hr l).mapping_method ∈
        ["only_choice", "only_active", "only_main", "needs_manual", "not_mapped"]) ∧
      ((identify_go hrSys sysEmail df_hr l).mapping_method ∈
          ["only_choice", "only_active", "only_main"] →
        ∃ u, (identify_go hrSys sysEmail df_hr l).employee_id = EmpId.one u) ∧
      ((identify_go hrSys sysEmail df_hr l).mapping_method = "needs_manual" →
        ∃ ls, (identify_go hrSys sysEmail df_hr l).employee_id = EmpId.many ls) ∧
      ((identify_go hrSys sysEmail df_hr l).mapping_method = "not_mapped" →
        (identify_go hrSys sysEmail df_hr l).employee_id = EmpId.many ["no_options"]) := by
  intro l
  induction l with
  | nil =>
    have hm : (identify_go hrSys sysEmail df_hr []).mapping_method = "not_mapped" := rfl
    have he : (identify_go hrSys sysEmail df_hr []).employee_id =
        EmpId.many ["no_options"] := rfl
    refine ⟨by rw [hm]; decide, ?_, ?_, fun _ => he⟩
    · intro h; rw [hm] at h; exact absurd h (by decide)
    · intro h; rw [hm] at h; exact absurd h (by decide)
  | cons pv rest ih =>
    obtain ⟨param, value⟩ := pv
    by_cases hg : (get_employee_uid (keyFilter df_hr param value) param).emp ≠
        EmpId.one "not_mapped"
    · have hred : identify_go hrSys sysEmail df_hr ((param, value) :: rest) =
          stepResult hrSys sysEmail (get_employee_uid (keyFilter df_hr param value) param) := by
        rw [identify_go, if_pos hg]
      rw [hred]
      rcases get_employee_uid_cases (keyFilter df_hr param value) param with
        ⟨_, heq⟩ | ⟨hm, r, _, hemp⟩ | ⟨hm, ls, hemp, _⟩
      · rw [heq] at hg
        simp at hg
      · simp only [List.mem_cons, List.not_mem_nil, or_false] at hm
        refine ⟨?_, fun _ => ⟨r.employee_uid, hemp⟩, ?_, ?_⟩
        · show (get_employee_uid (keyFilter df_hr param value) param).method ∈ _
          rcases hm with h | h | h <;> rw [h] <;> decide
        · intro h
          have h2 : (get_employee_uid (keyFilter df_hr param value) param).method =
            "needs_manual" := h
          rcases hm with h3 | h3 | h3 <;> rw [h3] at h2 <;> exact absurd h2 (by decide)
        · intro h
          have h2 : (get_employee_uid (keyFilter df_hr param value) param).method =
            "not_mapped" := h
          rcases hm with h3 | h3 | h3 <;> rw [h3] at h2 <;> exact absurd h2 (by decide)
      · refine ⟨?_, ?_, fun _ => ⟨ls, hemp⟩, ?_⟩
        · show (get_employee_uid (keyFilter df_hr param value) param).method ∈ _
          rw [hm]; decide
        · intro h
          have h2 : (get_employee_uid (keyFilter df_hr param value) param).method ∈
            (["only_choice", "only_active", "only_main"] : List String) := h
          rw [hm] at h2
          exact absurd h2 (by decide)
        · intro h
          have h2 : (get_employee_uid (keyFilter df_hr param value) param).method =
            "not_mapped" := h
          rw [hm] at h2
          exact absurd h2 (by decide)
    · have hred : identify_go hrSys sysEmail df_hr ((param, value) :: rest) =
          identify_go hrSys sysEmail df_hr rest := by
        rw [identify_go, if_neg hg]
      rw [hred]
      exact ih

/- ### Claim C3 -/

/-- C3: when a candidate key yields more than one HR row, the Tie-Breaker
keeps only the rows whose `exit_date` equals the maximum `exit_date` among
the candidates (`exitMax` is an upper bound of the candidates' exit dates),
resolving `only_active` if exactly one remains; otherwise it keeps only the
rows with the main-workplace flag, resolving `only_main` if exactly one
remains; and for exactly two rows sharing the matched key, the one with the
strictly larger (sentinel) `exit_date` is chosen with method `only_active`. -/
theorem C3_tie_breaker :
    (∀ (df : List HrRow) (r : HrRow), r ∈ df → r.exit_date ≤ exitMax df) ∧
    (∀ (df : List HrRow) (t : String), 1 < df.length →
      ((tieFilterExit df).length = 1 →
        ∃ r ∈ tieFilterExit df,
          get_employee_uid df t = ⟨EmpId.one r.employee_uid, "only_active", t⟩) ∧
      ((tieFilterExit df).length ≠ 1 →
        (tieFilterMain (tieFilterExit df)).length = 1 →
        ∃ r ∈ tieFilterMain (tieFilterExit df),
          get_employee_uid df t = ⟨EmpId.one r.employee_uid, "only_main", t⟩)) ∧
    (∀ (r1 r2 : HrRow) (t : String), r2.exit_date < r1.exit_date →
      get_employee_uid [r1, r2] t = ⟨EmpId.one r1.employee_uid, "only_active", t⟩) := by
  refine ⟨fun df r h => exitMax_is_max df r h, ?_, get_employee_uid_two_rows⟩
  intro df t hlen
  have h0 : ¬ df.length = 0 := by omega
  have h1 : ¬ df.length = 1 := by omega
  constructor
  · intro hx
    obtain ⟨r, hr, he⟩ :=
      headUid_mem (tieFilterExit df) (by intro hn; rw [hn] at hx; simp at hx)
    refine ⟨r, hr, ?_⟩
    unfold get_employee_uid
    rw [if_neg h0, if_neg h1, if_pos hx, he]
  · intro hx hm
    obtain ⟨r, hr, he⟩ :=
      headUid_mem (tieFilterMain (tieFilterExit df))
        (by intro hn; rw [hn] at hm; simp at hm)
    refine ⟨r, hr, ?_⟩
    unfold get_employee_uid
    rw [if_neg h0, if_neg h1, if_neg hx, if_pos hm, he]

/-- Witness for C3 at the spec's end-to-end scenario: two HR rows share the
matched name key, the active one (sentinel exit date 47847, i.e. 2100-12-31)
wins over the terminated one with method `only_active`. -/
theorem C3_tie_breaker_witness :
    get_employee_uid
      [⟨"42", "ivan.smirnov@co.com", "smirnov ivan", "smirnov ivan", "ivan.smirnov", 47847, true⟩,
       ⟨"43", "i.smirnov2@co.com", "smirnov ivan", "smirnov ivan", "i.smirnov2", 18017, false⟩]
      "employee_name" =
      ⟨EmpId.one "42", "only_active", "employee_name"⟩ :=
  C3_tie_breaker.2.2 _ _ "employee_name" (by decide)

/- ### Claim C2 -/

/-- C2 counterexample: two HR rows match the account's email, tie on
`exit_date`, and both have `main_workplace = False`, so the second tie-break
filter empties the frame and the engine returns method `needs_manual` with an
empty candidate list — not a non-empty one as claimed. -/
theorem C2_counterexample :
    (identify_user (fun s => s)
        ⟨"sys", "A@B.com", "a@b.com", "a", "n m", "n m o"⟩
        [⟨"u1", "a@b.com", "x y z", "x y", "zz", 100, false⟩,
         ⟨"u2", "a@b.com", "q w e", "q w", "zz2", 100, false⟩]).mapping_method =
      "needs_manual" ∧
    (identify_user (fun s => s)
        ⟨"sys", "A@B.com", "a@b.com", "a", "n m", "n m o"⟩
        [⟨"u1", "a@b.com", "x y z", "x y", "zz", 100, false⟩,
         ⟨"u2", "a@b.com", "q w e", "q w", "zz2", 100, false⟩]).employee_id =
      EmpId.many [] := by
  constructor <;> rfl

/-- C2 (amended): the mapping method is always one of the five enumerated
values; `employee_id` is a single identifier for `only_choice`, `only_active`
and `only_main`, a (possibly empty) list of candidate identifiers for
`needs_manual`, and exactly `["no_options"]` for `not_mapped`.  The list can
be empty because the `main_workplace` filter may eliminate every remaining
candidate. -/
theorem C2_method_id_shape (translitRu : String → String) (row : CloudRow)
    (df_hr : List HrRow) :
    ((identify_user translitRu row df_hr).mapping_method ∈
      ["only_choice", "only_active", "only_main", "needs_manual", "not_mapped"]) ∧
    ((identify_user translitRu row df_hr).mapping_method ∈
        ["only_choice", "only_active", "only_main"] →
      ∃ u, (identify_user translitRu row df_hr).employee_id = EmpId.one u) ∧
    ((identify_user translitRu row df_hr).mapping_method = "needs_manual" →
      ∃ ls, (identify_user translitRu row df_hr).employee_id = EmpId.many ls) ∧
    ((identify_user translitRu row df_hr).mapping_method = "not_mapped" →
      (identify_user translitRu row df_hr).employee_id = EmpId.many ["no_options"]) :=
  identify_go_shape row.hr_system row.email df_hr (attempts translitRu row)

/-- Witness for C2 at concrete inputs: a uniquely matched account gets a
single identifier with method `only_choice`, and an unmatched account gets
`["no_options"]` with method `not_mapped`. -/
theorem C2_method_id_shape_witness :
    (∃ u, (identify_user (fun s => s)
        ⟨"sys", "A@B.com", "a@b.com", "a", "n m", "n m o"⟩
        [⟨"u1", "a@b.com", "x y z", "x y", "zz", 100, false⟩]).employee_id =
      EmpId.one u) ∧
    (identify_user (fun s => s)
        ⟨"sys", "A@B.com", "a@b.com", "a", "n m", "n m o"⟩ []).employee_id =
      EmpId.many ["no_options"] := by
  constructor
  · exact (C2_method_id_shape (fun s => s)
      ⟨"sys", "A@B.com", "a@b.com", "a", "n m", "n m o"⟩
      [⟨"u1", "a@b.com", "x y z", "x y", "zz", 100, false⟩]).2.1 (by decide)
  · exact (C2_method_id_shape (fun s => s)
      ⟨"sys", "A@B.com", "a@b.com", "a", "n m", "n m o"⟩ []).2.2.2 (by decide)

/- ### Claim C1 -/

theorem get_employee_uid_emp_sentinel (df : List HrRow) (t : String)
    (hclean : ∀ r ∈ df, r.employee_uid ≠ "not_mapped") (hne : df ≠ []) :
    (get_employee_uid df t).emp ≠ EmpId.one "not_mapped" := by
  rcases get_employee_uid_cases df t with ⟨h, _⟩ | ⟨_, r, hr, hemp⟩ | ⟨_, ls, hemp, _⟩
  · exact absurd h hne
  · rw [hemp]
    intro hcon
    injection hcon with h2
    exact hclean r hr h2
  · rw [hemp]
    intro hcon
    exact EmpId.noConfusion hcon

theorem identify_go_eq_cascade (hrSys sysEmail : String) (df_hr : List HrRow)
    (hclean : ∀ r ∈ df_hr, r.employee_uid ≠ "not_mapped") :
    ∀ l, identify_go hrSys sysEmail df_hr l = cascade_go_spec hrSys sysEmail df_hr l := by
  intro l
  induction l with
  | nil => rfl
  | cons pv rest ih =>
    obtain ⟨param, value⟩ := pv
    by_cases hne : keyFilter df_hr param value = []
    · have hval : get_employee_uid (keyFilter df_hr param value) param =
          ⟨EmpId.one "not_mapped", "not_mapped", param⟩ := by
        rw [hne]
        rfl
      have hg : ¬ (get_employee_uid (keyFilter df_hr param value) param).emp ≠
          EmpId.one "not_mapped" := by
        rw [hval]
        exact fun hcon => hcon rfl
      rw [identify_go, if_neg hg, cascade_go_spec,
        if_neg (by rw [hne]; exact fun hcon => hcon rfl), ih]
    · have hcleanf : ∀ r ∈ keyFilter df_hr param value, r.employee_uid ≠ "not_mapped" :=
        fun r hr => hclean r (List.mem_filter.mp hr).1
      have hg := get_employee_uid_emp_sentinel _ param hcleanf hne
      rw [identify_go, if_pos hg, cascade_go_spec,
        if_pos (fun h => hne (List.length_eq_zero.mp h))]

/-- C1 counterexample: with an HR row whose `employee_uid` is the literal
string `"not_mapped"` (the in-band sentinel), the earliest non-empty key
(`email`, matching that single row) is skipped because the loop's stop test
`mapping_result[0] != 'not_mapped'` confuses the uid with the sentinel, and
the cascade keeps going down to `login` — so the result differs from the
spec's earliest-non-empty-key cascade. -/
theorem C1_counterexample :
    identify_user (fun s => s)
        ⟨"sys", "A@B.com", "a@b.com", "a", "x y", "x y z"⟩
        [⟨"not_mapped", "a@b.com", "q w e", "q w", "zz", 100, true⟩,
         ⟨"u2", "c@d.com", "r t y", "r t", "a", 100, true⟩] ≠
      cascade_spec (fun s => s)
        ⟨"sys", "A@B.com", "a@b.com", "a", "x y", "x y z"⟩
        [⟨"not_mapped", "a@b.com", "q w e", "q w", "zz", 100, true⟩,
         ⟨"u2", "c@d.com", "r t y", "r t", "a", 100, true⟩] := by decide

/-- C1 (amended): provided no HR row's `employee_uid` equals the literal
in-band sentinel string `"not_mapped"`, the Matcher evaluates the candidate
keys in the fixed priority order email, full_name, last_first_name
(transliterated), login, and returns the outcome of the earliest key whose
equality filter over the HR directory is non-empty, consulting no later key
(even when that outcome is `needs_manual`); a sole candidate row carrying the
sentinel uid is instead treated as no-match and the cascade continues. -/
theorem C1_cascade_earliest_nonempty_key (translitRu : String → String)
    (row : CloudRow) (df_hr : List HrRow)
    (hclean : ∀ r ∈ df_hr, r.employee_uid ≠ "not_mapped") :
    identify_user translitRu row df_hr = cascade_spec translitRu row df_hr :=
  identify_go_eq_cascade row.hr_system row.email df_hr hclean (attempts translitRu row)

/-- Witness for C1 (amended) at a concrete input: an account that matches one
HR record's login but a different HR record's name key resolves by the
earlier name key, as the spec-side cascade does. -/
theorem C1_cascade_earliest_nonempty_key_witness :
    identify_user (fun s => s)
        ⟨"sys", "A@B.com", "none@x.com", "a", "x y", "r t y"⟩
        [⟨"u1", "a@b.com", "q w e", "q w", "zz", 100, true⟩,
         ⟨"u2", "c@d.com", "r t y", "r t", "a", 100, true⟩] =
      cascade_spec (fun s => s)
        ⟨"sys", "A@B.com", "none@x.com", "a", "x y", "r t y"⟩
        [⟨"u1", "a@b.com", "q w e", "q w", "zz", 100, true⟩,
         ⟨"u2", "c@d.com", "r t y", "r t", "a", 100, true⟩] :=
  C1_cascade_earliest_nonempty_key (fun s => s)
    ⟨"sys", "A@B.com", "none@x.com", "a", "x y", "r t y"⟩
    [⟨"u1", "a@b.com", "q w e", "q w", "zz", 100, true⟩,
     ⟨"u2", "c@d.com", "r t y", "r t", "a", 100, true⟩] (by decide)

/- ### Claim C10 -/

theorem identify_go_sources (hrSys sysEmail : String) (df_hr : List HrRow)
    (translitRu : String → String) (row : CloudRow) :
    ∀ l : List (String × String),
      (∀ pv ∈ l, pv.2 = attempt_value translitRu row pv.1) →
      (((identify_go hrSys sysEmail df_hr l).mapping_method ≠ "not_mapped" →
        ∀ u, (identify_go hrSys sysEmail df_hr l).employee_id = EmpId.one u →
          ∃ r ∈ df_hr,
            hrField r (identify_go hrSys sysEmail df_hr l).mapping_source =
              attempt_value translitRu row
                (identify_go hrSys sysEmail df_hr l).mapping_source ∧
            r.employee_uid = u) ∧
      (∀ ls, (identify_go hrSys sysEmail df_hr l).employee_id = EmpId.many ls →
        (identify_go hrSys sysEmail df_hr l).mapping_method = "needs_manual" →
        ∀ u ∈ ls, ∃ r ∈ df_hr,
          hrField r (identify_go hrSys sysEmail df_hr l).mapping_source =
            attempt_value translitRu row
              (identify_go hrSys sysEmail df_hr l).mapping_source ∧
          r.employee_uid = u)) := by
  intro l
  induction l with
  | nil =>
    intro _
    constructor
    · intro h
      exact absurd rfl h
    · intro ls hemp hm
      have hm2 : ("not_mapped" : String) = "needs_manual" := hm
      exact absurd hm2 (by decide)
  | cons pv rest ih =>
    obtain ⟨param, value⟩ := pv
    intro hvals
    have hval : value = attempt_value translitRu row param :=
      hvals (param, value) (List.mem_cons_self _ _)
    by_cases hg : (get_employee_uid (keyFilter df_hr param value) param).emp ≠
        EmpId.one "not_mapped"
    · have hred : identify_go hrSys sysEmail df_hr ((param, value) :: rest) =
          stepResult hrSys sysEmail (get_employee_uid (keyFilter df_hr param value) param) := by
        rw [identify_go, if_pos hg]
      have hsrc : (stepResult hrSys sysEmail
          (get_employee_uid (keyFilter df_hr param value) param)).mapping_source = param :=
        get_employee_uid_source _ param
      rw [hred, hsrc]
      rcases get_employee_uid_cases (keyFilter df_hr param value) param with
        ⟨_, heq⟩ | ⟨_, r, hr, hemp⟩ | ⟨_, ls, hemp, hls⟩
      · rw [heq] at hg
        simp at hg
      · obtain ⟨hrdf, hrkey⟩ := List.mem_filter.mp hr
        have hkey : hrField r param = attempt_value translitRu row param := by
          rw [← hval]
          exact eq_of_beq hrkey
        constructor
        · intro _ u hemp2
          have hemp3 : (get_employee_uid (keyFilter df_hr param value) param).emp =
            EmpId.one u := hemp2
          rw [hemp] at hemp3
          injection hemp3 with h3
          exact ⟨r, hrdf, hkey, h3⟩
        · intro ls hemp2 _
          have hemp3 : (get_employee_uid (keyFilter df_hr param value) param).emp =
            EmpId.many ls := hemp2
          rw [hemp] at hemp3
          exact EmpId.noConfusion hemp3
      · constructor
        · intro _ u hemp2
          have hemp3 : (get_employee_uid (keyFilter df_hr param value) param).emp =
            EmpId.one u := hemp2
          rw [hemp] at hemp3
          exact EmpId.noConfusion hemp3
        · intro ls2 hemp2 _
          have hemp3 : (get_employee_uid (keyFilter df_hr param value) param).emp =
            EmpId.many ls2 := hemp2
          rw [hemp] at hemp3
          injection hemp3 with h3
          intro u hu
          rw [← h3] at hu
          obtain ⟨r, hr, he⟩ := hls u hu
          obtain ⟨hrdf, hrkey⟩ := List.mem_filter.mp hr
          refine ⟨r, hrdf, ?_, he.symm⟩
          rw [← hval]
          exact eq_of_beq hrkey
    · have hred : identify_go hrSys sysEmail df_hr ((param, value) :: rest) =
          identify_go hrSys sysEmail df_hr rest := by
        rw [identify_go, if_neg hg]
      rw [hred]
      exact ih (fun pv h => hvals pv (List.mem_cons_of_mem _ h))

theorem attempts_values (translitRu : String → String) (row : CloudRow) :
    ∀ pv ∈ attempts translitRu row, pv.2 = attempt_value translitRu row pv.1 := by
  intro pv h
  simp only [attempts, List.mem_cons, List.not_mem_nil, or_false] at h
  rcases h with h | h | h | h <;> subst h
  · show row.email_clean = attempt_value translitRu row "email"
    rw [attempt_value, if_pos rfl]
  · show row.full_name = attempt_value translitRu row "employee_name"
    rw [attempt_value, if_neg (by decide), if_pos rfl]
  · show transliterate_latin translitRu row.last_first_name =
      attempt_value translitRu row "last_first_name"
    rw [attempt_value, if_neg (by decide), if_neg (by decide), if_pos rfl]
  · show row.login = attempt_value translitRu row "login"
    rw [attempt_value, if_neg (by decide), if_neg (by decide), if_neg (by decide)]

/-- C10: whenever the Matcher resolves with `only_choice`, `only_active` or
`only_main`, the returned `employee_id` is the `employee_uid` of an HR row
whose field named by `mapping_source` equals the account's value for that
candidate key; and when it returns `needs_manual`, every identifier in the
candidate list is the `employee_uid` of such a matching row. -/
theorem C10_ids_from_candidates (translitRu : String → String) (row : CloudRow)
    (df_hr : List HrRow) :
    (((identify_user translitRu row df_hr).mapping_method ≠ "not_mapped" →
      ∀ u, (identify_user translitRu row df_hr).employee_id = EmpId.one u →
        ∃ r ∈ df_hr,
          hrField r (identify_user translitRu row df_hr).mapping_source =
            attempt_value translitRu row
              (identify_user translitRu row df_hr).mapping_source ∧
          r.employee_uid = u) ∧
    (∀ ls, (identify_user translitRu row df_hr).employee_id = EmpId.many ls →
      (identify_user translitRu row df_hr).mapping_method = "needs_manual" →
      ∀ u ∈ ls, ∃ r ∈ df_hr,
        hrField r (identify_user translitRu row df_hr).mapping_source =
          attempt_value translitRu row
            (identify_user translitRu row df_hr).mapping_source ∧
        r.employee_uid = u)) :=
  identify_go_sources row.hr_system row.email df_hr translitRu row
    (attempts translitRu row) (attempts_values translitRu row)

/-- Witness for C10 at a concrete input: the account uniquely matched by
email resolves to the uid of the HR row whose email equals the account's
cleaned email. -/
theorem C10_ids_from_candidates_witness :
    ∃ r ∈ ([⟨"u1", "a@b.com", "x y z", "x y", "zz", 100, false⟩] : List HrRow),
      hrField r (identify_user (fun s => s)
          ⟨"sys", "A@B.com", "a@b.com", "a", "n m", "n m o"⟩
          [⟨"u1", "a@b.com", "x y z", "x y", "zz", 100, false⟩]).mapping_source =
        attempt_value (fun s => s)
          ⟨"sys", "A@B.com", "a@b.com", "a", "n m", "n m o"⟩
          (identify_user (fun s => s)
            ⟨"sys", "A@B.com", "a@b.com", "a", "n m", "n m o"⟩
            [⟨"u1", "a@b.com", "x y z", "x y", "zz", 100, false⟩]).mapping_source ∧
      r.employee_uid = "u1" :=
  (C10_ids_from_candidates (fun s => s)
    ⟨"sys", "A@B.com", "a@b.com", "a", "n m", "n m o"⟩
    [⟨"u1", "a@b.com", "x y z", "x y", "zz", 100, false⟩]).1 (by decide) "u1" (by decide)

/- ### Claim C5 -/

theorem runLoop_eq_partition (translitRu : String → String) (df_hr : List HrRow) :
    ∀ accounts : List CloudRow,
      runLoop translitRu df_hr accounts =
        ((accounts.map (fun row => identify_user translitRu row df_hr)).filter
            (fun r => !(pendingPred r)),
         (accounts.map (fun row => identify_user translitRu row df_hr)).filter pendingPred) := by
  intro accounts
  induction accounts with
  | nil => rfl
  | cons row rest ih =>
    by_cases hp : pendingPred (identify_user translitRu row df_hr)
    · rw [runLoop, if_pos hp, ih]
      simp [List.filter, hp]
    · rw [runLoop, if_neg hp, ih]
      have hp2 : pendingPred (identify_user translitRu row df_hr) = false := by
        simpa using hp
      simp [List.filter, hp2]

/-- C5: in every run, each account the Matcher evaluates is routed to exactly
one of the two output lists — to the pending list when its method is
`needs_manual` or `not_mapped` and to the automatic list otherwise; the two
lists partition the results (their lengths sum to the number of evaluated
accounts and their predicates are disjoint), every pending result explodes to
at least one row (one row per candidate identifier when the candidate list is
non-empty), and `map_users` appends the first list to the automatic table and
replaces the pending table with the exploded second list. -/
theorem C5_partition (translitRu : String → String) (df_hr : List HrRow)
    (accounts : List CloudRow) :
    (runLoop translitRu df_hr accounts =
      ((accounts.map (fun row => identify_user translitRu row df_hr)).filter
          (fun r => !(pendingPred r)),
       (accounts.map (fun row => identify_user translitRu row df_hr)).filter pendingPred)) ∧
    (∀ r ∈ (runLoop translitRu df_hr accounts).1, pendingPred r = false) ∧
    (∀ r ∈ (runLoop translitRu df_hr accounts).2, pendingPred r = true) ∧
    ((runLoop translitRu df_hr accounts).1.length +
      (runLoop translitRu df_hr accounts).2.length = accounts.length) ∧
    (∀ r : MatchResult, explodeRow r ≠ []) ∧
    (∀ ls : List String, ls ≠ [] → explodeIds (EmpId.many ls) = ls.map some) ∧
    (∀ (known : Option (List String)) (st : DbState),
      map_users translitRu accounts df_hr known st =
        ⟨st.auto ++ (runLoop translitRu df_hr (evaluated known accounts)).1,
         some (markAlready st.pendingTable
           (((runLoop translitRu df_hr (evaluated known accounts)).2.map explodeRow).flatten))⟩) := by
  refine ⟨runLoop_eq_partition translitRu df_hr accounts, ?_, ?_, ?_, ?_, ?_, fun _ _ => rfl⟩
  · intro r hr
    rw [runLoop_eq_partition] at hr
    have := (List.mem_filter.mp hr).2
    simpa using this
  · intro r hr
    rw [runLoop_eq_partition] at hr
    exact (List.mem_filter.mp hr).2
  · rw [runLoop_eq_partition]
    dsimp only
    have hperm := List.filter_append_perm pendingPred
      (accounts.map (fun row => identify_user translitRu row df_hr))
    have hlen := hperm.length_eq
    rw [List.length_append] at hlen
    rw [List.length_map] at hlen
    omega
  · intro r
    unfold explodeRow
    cases hid : r.employee_id with
    | one s => simp [explodeIds]
    | many ls => cases ls <;> simp [explodeIds]
  · intro ls hne
    match ls, hne with
    | x :: xs, _ => rfl

/-- Witness for C5 at a concrete input: one evaluated account lands in
exactly one of the two lists (lengths sum to 1), and the unmatched account's
result satisfies the pending predicate. -/
theorem C5_partition_witness :
    ((runLoop (fun s => s) [] [⟨"sys", "E", "e", "l", "lf", "fn"⟩]).1.length +
      (runLoop (fun s => s) [] [⟨"sys", "E", "e", "l", "lf", "fn"⟩]).2.length = 1) ∧
    pendingPred ⟨"sys", "E", EmpId.many ["no_options"], "not_mapped", "not_mapped"⟩ = true := by
  constructor
  · exact (C5_partition (fun s => s) [] [⟨"sys", "E", "e", "l", "lf", "fn"⟩]).2.2.2.1
  · exact (C5_partition (fun s => s) [] [⟨"sys", "E", "e", "l", "lf", "fn"⟩]).2.2.1
      ⟨"sys", "E", EmpId.many ["no_options"], "not_mapped", "not_mapped"⟩ (by decide)

/- ### Claim C4 -/

theorem identify_go_system_email (hrSys sysEmail : String) (df_hr : List HrRow) :
    ∀ l, (identify_go hrSys sysEmail df_hr l).system_email = sysEmail := by
  intro l
  induction l with
  | nil => rfl
  | cons pv rest ih =>
    obtain ⟨param, value⟩ := pv
    rw [identify_go]
    split_ifs with h
    · rfl
    · exact ih

theorem identify_user_system_email (translitRu : String → String) (row : CloudRow)
    (df_hr : List HrRow) :
    (identify_user translitRu row df_hr).system_email = row.email :=
  identify_go_system_email row.hr_system row.email df_hr (attempts translitRu row)

theorem runLoop_mapped_mem (translitRu : String → String) (df_hr : List HrRow)
    (accounts : List CloudRow) (r : MatchResult)
    (hr : r ∈ (runLoop translitRu df_hr accounts).1) :
    ∃ row ∈ accounts, r = identify_user translitRu row df_hr := by
  rw [runLoop_eq_partition] at hr
  have h1 := (List.mem_filter.mp hr).1
  obtain ⟨row, hrow, he⟩ := List.mem_map.mp h1
  exact ⟨row, hrow, he.symm⟩

theorem mapped_email_in_run_auto (translitRu : String → String) (df_hr : List HrRow)
    (accounts : List CloudRow) (known : Option (List String)) (st : DbState)
    (row : CloudRow) (hrow : row ∈ evaluated known accounts)
    (hres : pendingPred (identify_user translitRu row df_hr) = false) :
    row.email ∈ (map_users translitRu accounts df_hr known st).auto.map
      (fun r => r.system_email) := by
  have hmem : identify_user translitRu row df_hr ∈
      (runLoop translitRu df_hr (evaluated known accounts)).1 := by
    rw [runLoop_eq_partition]
    refine List.mem_filter.mpr ⟨List.mem_map_of_mem _ hrow, ?_⟩
    simp [hres]
  have hauto : identify_user translitRu row df_hr ∈
      (map_users translitRu accounts df_hr known st).auto := by
    show identify_user translitRu row df_hr ∈
      st.auto ++ (runLoop translitRu df_hr (evaluated known accounts)).1
    exact List.mem_append_right _ hmem
  have h2 := List.mem_map_of_mem (fun r => r.system_email) hauto
  dsimp only at h2
  rwa [identify_user_system_email] at h2

/-- C4: running `map_users` twice against an unchanged HR directory and
cloud-account set, with the `v_hr_cloud_mapping` view modelled per the spec
as the automatic-table emails plus the (unchanged) manual emails, appends no
row to the automatic table on the second run; every account resolved in the
first run has its email in the known-mapped set of the second run, and every
account the second run still evaluates resolves to a pending method. -/
theorem C4_second_run_appends_nothing (translitRu : String → String)
    (accounts : List CloudRow) (df_hr : List HrRow)
    (manualEmails : List String) (st0 : DbState) :
    ((map_users translitRu accounts df_hr
        (some (knownMappedAccounts (map_users translitRu accounts df_hr
          (some (knownMappedAccounts st0 manualEmails)) st0) manualEmails))
        (map_users translitRu accounts df_hr
          (some (knownMappedAccounts st0 manualEmails)) st0)).auto =
      (map_users translitRu accounts df_hr
        (some (knownMappedAccounts st0 manualEmails)) st0).auto) ∧
    (∀ row ∈ evaluated (some (knownMappedAccounts st0 manualEmails)) accounts,
      pendingPred (identify_user translitRu row df_hr) = false →
      row.email ∈ knownMappedAccounts (map_users translitRu accounts df_hr
        (some (knownMappedAccounts st0 manualEmails)) st0) manualEmails) ∧
    (∀ row ∈ evaluated (some (knownMappedAccounts (map_users translitRu accounts df_hr
        (some (knownMappedAccounts st0 manualEmails)) st0) manualEmails)) accounts,
      pendingPred (identify_user translitRu row df_hr) = true) := by
  set st1 := map_users translitRu accounts df_hr
    (some (knownMappedAccounts st0 manualEmails)) st0 with hst1
  have hknown2 : ∀ row ∈ evaluated (some (knownMappedAccounts st0 manualEmails)) accounts,
      pendingPred (identify_user translitRu row df_hr) = false →
      row.email ∈ knownMappedAccounts st1 manualEmails := by
    intro row hrow hres
    unfold knownMappedAccounts
    exact List.mem_append_left _
      (mapped_email_in_run_auto translitRu df_hr accounts _ st0 row hrow hres)
  have hpend2 : ∀ row ∈ evaluated (some (knownMappedAccounts st1 manualEmails)) accounts,
      pendingPred (identify_user translitRu row df_hr) = true := by
    intro row hrow
    by_contra hcon
    rw [Bool.not_eq_true] at hcon
    obtain ⟨hacc, hnotin⟩ := List.mem_filter.mp hrow
    have hnotin2 : row.email ∉ knownMappedAccounts st1 manualEmails := by
      intro hmem
      rw [Bool.not_eq_eq_eq_not, Bool.not_true] at hnotin
      have : (knownMappedAccounts st1 manualEmails).contains row.email = true :=
        List.elem_iff.mpr hmem
      rw [this] at hnotin
      exact Bool.noConfusion hnotin
    have hrow0 : row ∈ evaluated (some (knownMappedAccounts st0 manualEmails)) accounts := by
      refine List.mem_filter.mpr ⟨hacc, ?_⟩
      have hnotin0 : row.email ∉ knownMappedAccounts st0 manualEmails := by
        intro hmem
        apply hnotin2
        unfold knownMappedAccounts at hmem ⊢
        rcases List.mem_append.mp hmem with h | h
        · refine List.mem_append_left _ ?_
          obtain ⟨r, hrs, he⟩ := List.mem_map.mp h
          refine List.mem_map.mpr ⟨r, ?_, he⟩
          show r ∈ (st0.auto ++ (runLoop translitRu df_hr
            (evaluated (some (knownMappedAccounts st0 manualEmails)) accounts)).1)
          exact List.mem_append_left _ hrs
        · exact List.mem_append_right _ h
      cases hc : (knownMappedAccounts st0 manualEmails).contains row.email with
      | false => rfl
      | true =>
        exact absurd (List.elem_iff.mp hc) hnotin0
    exact hnotin2 (hknown2 row hrow0 hcon)
  refine ⟨?_, hknown2, hpend2⟩
  have hloop : (runLoop translitRu df_hr
      (evaluated (some (knownMappedAccounts st1 manualEmails)) accounts)).1 = [] := by
    rw [runLoop_eq_partition]
    dsimp only
    rw [List.filter_eq_nil_iff]
    intro a ha
    obtain ⟨row, hrow, he⟩ := List.mem_map.mp ha
    rw [← he]
    simp [hpend2 row hrow]
  show st1.auto ++ (runLoop translitRu df_hr
      (evaluated (some (knownMappedAccounts st1 manualEmails)) accounts)).1 = st1.auto
  rw [hloop, List.append_nil]

/-- Witness for C4 at a concrete input: one account resolved by email in the
first run; the second run appends nothing and the account's email is in the
modelled known-mapped view after the first run. -/
theorem C4_second_run_appends_nothing_witness :
    ((map_users (fun s => s) [⟨"sys", "A@B.com", "a@b.com", "a", "n m", "n m o"⟩]
        [⟨"u1", "a@b.com", "x y z", "x y", "zz", 100, false⟩]
        (some (knownMappedAccounts (map_users (fun s => s)
          [⟨"sys", "A@B.com", "a@b.com", "a", "n m", "n m o"⟩]
          [⟨"u1", "a@b.com", "x y z", "x y", "zz", 100, false⟩]
          (some (knownMappedAccounts ⟨[], none⟩ [])) ⟨[], none⟩) []))
        (map_users (fun s => s) [⟨"sys", "A@B.com", "a@b.com", "a", "n m", "n m o"⟩]
          [⟨"u1", "a@b.com", "x y z", "x y", "zz", 100, false⟩]
          (some (knownMappedAccounts ⟨[], none⟩ [])) ⟨[], none⟩)).auto =
      (map_users (fun s => s) [⟨"sys", "A@B.com", "a@b.com", "a", "n m", "n m o"⟩]
        [⟨"u1", "a@b.com", "x y z", "x y", "zz", 100, false⟩]
        (some (knownMappedAccounts ⟨[], none⟩ [])) ⟨[], none⟩).auto) ∧
    "A@B.com" ∈ knownMappedAccounts (map_users (fun s => s)
      [⟨"sys", "A@B.com", "a@b.com", "a", "n m", "n m o"⟩]
      [⟨"u1", "a@b.com", "x y z", "x y", "zz", 100, false⟩]
      (some (knownMappedAccounts ⟨[], none⟩ [])) ⟨[], none⟩) [] := by
  constructor
  · exact (C4_second_run_appends_nothing (fun s => s)
      [⟨"sys", "A@B.com", "a@b.com", "a", "n m", "n m o"⟩]
      [⟨"u1", "a@b.com", "x y z", "x y", "zz", 100, false⟩] [] ⟨[], none⟩).1
  · exact (C4_second_run_appends_nothing (fun s => s)
      [⟨"sys", "A@B.com", "a@b.com", "a", "n m", "n m o"⟩]
      [⟨"u1", "a@b.com", "x y z", "x y", "zz", 100, false⟩] [] ⟨[], none⟩).2.1
      ⟨"sys", "A@B.com", "a@b.com", "a", "n m", "n m o"⟩ (by decide) (by decide)

/- ### Claim C6 -/

/-- C6 counterexample: under the prefix-failure model, a run that dies after
its fourth operation (right after the append to `hr_cloud_mapped_auto`) has
persisted the automatic append but not the pending-table replacement, so the
run is not all-or-nothing with respect to persisted output. -/
theorem C6_counterexample :
    ¬ (RunOp.writeAuto ∈ persistedWrites true true true 4 ↔
       RunOp.writePending ∈ persistedWrites true true true 4) := by decide

/-- C6 (amended): both loads (cloud accounts and HR directory) happen before
any write, so a run that fails before completing the HR load persists
nothing and both output tables keep their prior state; but the two output
writes are sequential — the pending replacement is persisted only in runs
whose automatic append already persisted, and a failure between the two
leaves the automatic append alone. -/
theorem C6_write_ordering :
    (∀ (b1 b2 b3 : Bool) (k : Nat),
      (RunOp.readCloud ∉ (runTrace b1 b2 b3).take k ∨
        RunOp.readHr ∉ (runTrace b1 b2 b3).take k) →
      persistedWrites b1 b2 b3 k = []) ∧
    (∀ (b1 b2 b3 : Bool) (k : Nat),
      RunOp.writePending ∈ persistedWrites b1 b2 b3 k →
      RunOp.writeAuto ∈ persistedWrites b1 b2 b3 k) := by
  constructor
  · intro b1 b2 b3 k h
    rcases Nat.lt_or_ge k 8 with hk | hk
    · revert h
      cases b1 <;> cases b2 <;> cases b3 <;> interval_cases k <;> decide
    · have hlen : (runTrace b1 b2 b3).length ≤ k := by
        have h7 : (runTrace b1 b2 b3).length ≤ 7 := by
          cases b1 <;> cases b2 <;> cases b3 <;> decide
        omega
      unfold persistedWrites
      rw [List.take_of_length_le hlen] at h ⊢
      revert h
      cases b1 <;> cases b2 <;> cases b3 <;> decide
  · intro b1 b2 b3 k h
    rcases Nat.lt_or_ge k 8 with hk | hk
    · revert h
      cases b1 <;> cases b2 <;> cases b3 <;> interval_cases k <;> decide
    · have hlen : (runTrace b1 b2 b3).length ≤ k := by
        have h7 : (runTrace b1 b2 b3).length ≤ 7 := by
          cases b1 <;> cases b2 <;> cases b3 <;> decide
        omega
      unfold persistedWrites at h ⊢
      rw [List.take_of_length_le hlen] at h ⊢
      revert h
      cases b1 <;> cases b2 <;> cases b3 <;> decide

/-- Witness for C6 (amended) at a concrete input: a run that dies after two
operations (before the HR load) has persisted nothing, and at completion the
pending write implies the auto write persisted. -/
theorem C6_write_ordering_witness :
    persistedWrites true true true 2 = [] ∧
    RunOp.writeAuto ∈ persistedWrites true true true 7 := by
  constructor
  · exact C6_write_ordering.1 true true true 2 (by decide)
  · exact C6_write_ordering.2 true true true 7 (by decide)

/- ### Claim C9 -/

/-- C9: the Feedback Loop import keeps exactly the reviewed rows whose
`load_to_manual` equals 1, stamps each kept row with the `last_update`
timestamp, and replaces the manual-override table wholesale regardless of
its prior content; when the reviewed file is absent the stored table is left
unchanged. -/
theorem C9_manual_import (now : Nat) (oldTable : List StampedManualRow) :
    (update_manual_from_excel none now oldTable = oldTable) ∧
    (∀ (rows : List ManualRow) (s : StampedManualRow),
      s ∈ update_manual_from_excel (some rows) now oldTable ↔
        s.row ∈ rows ∧ s.row.load_to_manual = 1 ∧ s.last_update = now) ∧
    (∀ (rows : List ManualRow) (otherTable : List StampedManualRow),
      update_manual_from_excel (some rows) now oldTable =
        update_manual_from_excel (some rows) now otherTable) := by
  refine ⟨rfl, ?_, fun _ _ => rfl⟩
  intro rows s
  constructor
  · intro h
    unfold update_manual_from_excel at h
    obtain ⟨r, hr, he⟩ := List.mem_map.mp h
    obtain ⟨hrin, hrflag⟩ := List.mem_filter.mp hr
    rw [← he]
    exact ⟨hrin, by simpa using hrflag, rfl⟩
  · intro ⟨hin, hflag, hstamp⟩
    unfold update_manual_from_excel
    refine List.mem_map.mpr ⟨s.row, List.mem_filter.mpr ⟨hin, by simp [hflag]⟩, ?_⟩
    cases s with
    | mk r lu =>
      cases hstamp
      rfl

/-- Witness for C9 at a concrete input: a reviewed table with one flagged and
one unflagged row replaces the old table by exactly the flagged row, stamped;
an absent file leaves the old table unchanged. -/
theorem C9_manual_import_witness :
    (update_manual_from_excel none 7 [⟨⟨"e", "u", 1⟩, 3⟩] = [⟨⟨"e", "u", 1⟩, 3⟩]) ∧
    (⟨⟨"a@b", "u1", 1⟩, 7⟩ : StampedManualRow) ∈
      update_manual_from_excel (some [⟨"a@b", "u1", 1⟩, ⟨"c@d", "u2", 0⟩]) 7
        [⟨⟨"e", "u", 1⟩, 3⟩] := by
  constructor
  · exact (C9_manual_import 7 [⟨⟨"e", "u", 1⟩, 3⟩]).1
  · exact ((C9_manual_import 7 [⟨⟨"e", "u", 1⟩, 3⟩]).2.1
      [⟨"a@b", "u1", 1⟩, ⟨"c@d", "u2", 0⟩] ⟨⟨"a@b", "u1", 1⟩, 7⟩).mpr
      ⟨by decide, by decide, rfl⟩
